import Mathlib

/-!
Shallow embedding of `src/main.rs` (a minimal tcod roguelike):
tile grid generation (`make_map`), object movement (`Object::move_by`),
key dispatch (`handle_keys`) and the renderer (`render_all`).

Machine integers: all coordinates are `i32` in the source; they are
modelled as `Int` (every value occurring in the program is tiny, far from
the i32 range ends, so wrap-around never occurs).  The `as usize` cast
before a `Vec` index is modelled by `Int.toNat` guarded by a sign test:
a negative `i32` cast to `usize` lands far outside any allocated `Vec`,
so both the negative case and an index past the length panic; panics are
modelled as `none`.
-/

set_option maxRecDepth 100000

/-- Rust `const` items of `main.rs`. -/
def SCREEN_WIDTH : Int := 80

def SCREEN_HEIGHT : Int := 50

def MAP_WIDTH : Int := 80

def MAP_HEIGHT : Int := 45

/-- Model of `tcod::colors::Color` (r, g, b bytes). -/
structure Color where
  r : Nat
  g : Nat
  b : Nat
deriving DecidableEq, Repr

def COLOR_DARK_WALL : Color := ⟨0, 0, 100⟩

def COLOR_DARK_GROUND : Color := ⟨50, 50, 150⟩

/-- Value of `tcod::colors::WHITE`. -/
def WHITE : Color := ⟨255, 255, 255⟩

/-- Value of `tcod::colors::YELLOW`. -/
def YELLOW : Color := ⟨255, 255, 0⟩

/-- Rust `struct Tile { blocked: bool, block_sight: bool }`. -/
structure Tile where
  blocked : Bool
  block_sight : Bool
deriving DecidableEq, Repr

/-- Constructor `Tile::empty()`. -/
def Tile.empty : Tile := ⟨false, false⟩

/-- Constructor `Tile::wall()`. -/
def Tile.wall : Tile := ⟨true, true⟩

/-- Rust `type Map = Vec<Vec<Tile>>` — outer index `x`, inner index `y`. -/
def Map : Type := List (List Tile)

instance : DecidableEq Map := by unfold Map; infer_instance

/-- The `as usize` cast of an `i32` index: a negative value wraps to a
huge `usize`, out of bounds of any allocated `Vec` here, hence a panic
(`none`). -/
def idx? (n : Int) : Option Nat :=
  if 0 ≤ n then some n.toNat else none

/-- Read of `map[x as usize][y as usize]`; `none` models the panic. -/
def cell? (m : Map) (x y : Int) : Option Tile :=
  (idx? x).bind (fun xi => (idx? y).bind (fun yi =>
    ((show List (List Tile) from m)[xi]?).bind (fun row => row[yi]?)))

/-- Nat-indexed read of the grid (the in-bounds case of `cell?`). -/
def cellN (m : Map) (x y : Nat) : Option Tile :=
  ((show List (List Tile) from m)[x]?).bind (fun row => row[y]?)

/-- Store `map[x][y] = t` at Nat indices (all call sites are in bounds,
where `List.set` agrees with the `Vec` store). -/
def setCell (m : Map) (x y : Nat) (t : Tile) : Map :=
  (show List (List Tile) from m).set x
    (((show List (List Tile) from m).getD x []).set y t)

/-- Store `map[x as usize][y as usize] = t`; every call site of the
carving code passes nonnegative coordinates, so the cast never wraps. -/
def setCellI (m : Map) (x y : Int) (t : Tile) : Map :=
  setCell m x.toNat y.toNat t

/-- A Rust range `a..b` over `i32`, in order. -/
def intRange (a b : Int) : List Int :=
  (List.range (b - a).toNat).map (fun (i : Nat) => a + (i : Int))

/-- Rust `struct Rect { x1, x2, y1, y2 }`. -/
structure Rect where
  x1 : Int
  x2 : Int
  y1 : Int
  y2 : Int
deriving DecidableEq, Repr

/-- Constructor `Rect::new(x1, y1, w, h)`. -/
def Rect.new (x1 y1 w h : Int) : Rect :=
  ⟨x1, x1 + w, y1, y1 + h⟩

/-- Carving `fn add_room(room: Rect, map: &mut Map)`: for every
`x in room.x1+1..room.x2` and `y in room.y1+1..room.y2`, set the cell to
`Tile::empty()`. -/
def add_room (room : Rect) (m : Map) : Map :=
  (intRange (room.x1 + 1) room.x2).foldl (fun m x =>
    (intRange (room.y1 + 1) room.y2).foldl (fun m y =>
      setCellI m x y Tile.empty) m) m

/-- Carving `fn add_h_tunnel(x1, x2, y, map)`: carve row `y` for
`x in min(x1,x2)..max(x1,x2)+1`. -/
def add_h_tunnel (x1 x2 y : Int) (m : Map) : Map :=
  (intRange (min x1 x2) (max x1 x2 + 1)).foldl (fun m x =>
    setCellI m x y Tile.empty) m

/-- Carving `fn add_v_tunnel(y1, y2, x, map)`: carve column `x` for
`y in min(y1,y2)..max(y1,y2)+1`. -/
def add_v_tunnel (y1 y2 x : Int) (m : Map) : Map :=
  (intRange (min y1 y2) (max y1 y2 + 1)).foldl (fun m y =>
    setCellI m x y Tile.empty) m

/-- Generator `fn make_map() -> Map`: all-wall grid, two rooms, one
tunnel. -/
def make_map : Map :=
  let map : Map := List.replicate MAP_WIDTH.toNat
    (List.replicate MAP_HEIGHT.toNat Tile.wall)
  let room1 := Rect.new 20 15 10 15
  let room2 := Rect.new 50 15 10 15
  let map := add_room room1 map
  let map := add_room room2 map
  let map := add_h_tunnel 25 55 23 map
  map

/-- The floor region claimed by the spec: room A's interior, room B's
interior, or the tunnel row. -/
def isFloor (x y : Int) : Prop :=
  (21 ≤ x ∧ x ≤ 29 ∧ 16 ≤ y ∧ y ≤ 29) ∨
  (51 ≤ x ∧ x ≤ 59 ∧ 16 ≤ y ∧ y ≤ 29) ∨
  (y = 23 ∧ 25 ≤ x ∧ x ≤ 55)

instance isFloor.dec (x y : Int) : Decidable (isFloor x y) := by
  unfold isFloor; infer_instance

/-- Closed form of the generated map, cell by cell. -/
def mapExplicit : Map :=
  (List.range MAP_WIDTH.toNat).map (fun (x : Nat) =>
    (List.range MAP_HEIGHT.toNat).map (fun (y : Nat) =>
      if isFloor (Int.ofNat x) (Int.ofNat y) then Tile.empty else Tile.wall))

theorem make_map_eq_explicit : make_map = mapExplicit := by decide

/-- In-bounds cells of the generated map, cell by cell: empty on the
floor region, wall elsewhere. -/
theorem cellN_make_map (x y : Nat) (hx : x < 80) (hy : y < 45) :
    cellN make_map x y =
      some (if isFloor x y then Tile.empty else Tile.wall) := by
  rw [make_map_eq_explicit]
  have h80 : MAP_WIDTH.toNat = 80 := rfl
  have h45 : MAP_HEIGHT.toNat = 45 := rfl
  simp only [cellN, mapExplicit, h80, h45, List.getElem?_map,
    List.getElem?_range hx]
  simp [List.getElem?_range hy, Int.ofNat_eq_coe]

/-- Reads outside the allocated extents fail. -/
theorem cellN_make_map_none (x y : Nat) (h : 80 ≤ x ∨ 45 ≤ y) :
    cellN make_map x y = none := by
  rw [make_map_eq_explicit]
  have h80 : MAP_WIDTH.toNat = 80 := rfl
  have h45 : MAP_HEIGHT.toNat = 45 := rfl
  rcases Nat.lt_or_ge x 80 with hx | hx
  · have hy : 45 ≤ y := by omega
    simp only [cellN, mapExplicit, h80, h45, List.getElem?_map,
      List.getElem?_range hx]
    simp [List.getElem?_eq_none, hy]
  · have hx' : ((List.range MAP_WIDTH.toNat).map (fun (x : Nat) =>
        (List.range MAP_HEIGHT.toNat).map (fun (y : Nat) =>
          if isFloor (Int.ofNat x) (Int.ofNat y) then Tile.empty
          else Tile.wall)))[x]? = none := by
      rw [List.getElem?_eq_none]
      simpa [h80] using hx
    simp only [cellN, mapExplicit, hx', Option.none_bind]

/-- On nonnegative coordinates the cast read agrees with the Nat read. -/
theorem cell?_eq_cellN (m : Map) (x y : Int) (hx : 0 ≤ x) (hy : 0 ≤ y) :
    cell? m x y = cellN m x.toNat y.toNat := by
  simp [cell?, cellN, idx?, hx, hy]

/-- A negative coordinate makes the read panic. -/
theorem cell?_neg (m : Map) (x y : Int) (h : x < 0 ∨ y < 0) :
    cell? m x y = none := by
  rcases h with h | h
  · simp [cell?, idx?, Int.not_le.mpr h, bind, Option.bind]
  · rcases Decidable.em (0 ≤ x) with hx | hx
    · simp [cell?, idx?, hx, Int.not_le.mpr h, bind, Option.bind]
    · simp [cell?, idx?, hx, bind, Option.bind]

/-- Int-level characterisation of the generated map at in-bounds cells. -/
theorem cell?_make_map (x y : Int) (hx : 0 ≤ x) (hx' : x < 80)
    (hy : 0 ≤ y) (hy' : y < 45) :
    cell? make_map x y =
      some (if isFloor x y then Tile.empty else Tile.wall) := by
  rw [cell?_eq_cellN make_map x y hx hy,
    cellN_make_map x.toNat y.toNat (by omega) (by omega)]
  rw [Int.toNat_of_nonneg hx, Int.toNat_of_nonneg hy]

/-- Any floor cell lies well inside the grid. -/
theorem isFloor_bounds (x y : Int) (h : isFloor x y) :
    21 ≤ x ∧ x ≤ 59 ∧ 16 ≤ y ∧ y ≤ 29 := by
  unfold isFloor at h
  omega

/-- A successful in-map read pins the coordinates inside the extents. -/
theorem cell?_make_map_bounds (x y : Int) (t : Tile)
    (h : cell? make_map x y = some t) :
    0 ≤ x ∧ x < 80 ∧ 0 ≤ y ∧ y < 45 := by
  by_contra hc
  rcases Decidable.em (0 ≤ x) with hx | hx
  · rcases Decidable.em (0 ≤ y) with hy | hy
    · rw [cell?_eq_cellN make_map x y hx hy] at h
      have hb : 80 ≤ x.toNat ∨ 45 ≤ y.toNat := by omega
      rw [cellN_make_map_none _ _ hb] at h
      exact Option.noConfusion h
    · rw [cell?_neg make_map x y (Or.inr (by omega))] at h
      exact Option.noConfusion h
  · rw [cell?_neg make_map x y (Or.inl (by omega))] at h
    exact Option.noConfusion h

/-- Rust `struct Object { x, y, char, color }`. -/
structure Object where
  x : Int
  y : Int
  char : Char
  color : Color
deriving DecidableEq, Repr

/-- Constructor `Object::new(x, y, char, color)`. -/
def Object.new (x y : Int) (char : Char) (color : Color) : Object :=
  ⟨x, y, char, color⟩

/-- Method `Object::move_by(&mut self, dx, dy, map)`: read the candidate
cell (a panic is `none`) and commit the move only when it is not
blocked. -/
def Object.move_by (o : Object) (dx dy : Int) (m : Map) : Option Object :=
  let x := o.x + dx
  let y := o.y + dy
  (cell? m x y).map (fun t => if !t.blocked then { o with x := x, y := y } else o)

/-- Relevant constructors of `tcod::input::KeyCode`; `Other` stands for
every remaining key code. -/
inductive KeyCode where
  | Up
  | Down
  | Left
  | Right
  | Escape
  | Other (code : Nat)
deriving DecidableEq, Repr

/-- Model of `tcod::input::Key`: the two fields `handle_keys`
destructures (`code` and `alt`); the rest is dropped by `..`. -/
structure Key where
  code : KeyCode
  alt : Bool
deriving DecidableEq, Repr

/-- Dispatcher `fn handle_keys(tcod, player, map) -> bool`, with the key
returned by `wait_for_keypress` lifted to a parameter.  The `bool` is
the loop-exit flag; the mutated player rides along; a panic inside
`move_by` is `none`. -/
def handle_keys (key : Key) (player : Object) (m : Map) :
    Option (Bool × Object) :=
  match key.code, key.alt with
  | KeyCode.Up, _ => (player.move_by 0 (-1) m).map (fun p => (false, p))
  | KeyCode.Down, _ => (player.move_by 0 1 m).map (fun p => (false, p))
  | KeyCode.Left, _ => (player.move_by (-1) 0 m).map (fun p => (false, p))
  | KeyCode.Right, _ => (player.move_by 1 0 m).map (fun p => (false, p))
  | KeyCode.Escape, _ => some (true, player)
  | _, _ => some (false, player)

/-- Initial player of `main`: `Object::new(25, 23, '@', WHITE)`. -/
def player : Object := Object.new 25 23 '@' WHITE

/-- Initial NPC of `main`: `Object::new(25, 25, '@', YELLOW)`. -/
def npc : Object := Object.new 25 25 '@' YELLOW

/-- A finite sequence of `move_by` calls on one object (the panic of any
step aborts the sequence with `none`). -/
def apply_moves (o : Object) (moves : List (Int × Int)) (m : Map) :
    Option Object :=
  moves.foldlM (fun o d => o.move_by d.1 d.2 m) o

/-- The four unit displacements issued by the arrow keys. -/
def unitMoves : List (Int × Int) := [(0, -1), (0, 1), (-1, 0), (1, 0)]

/-- A successful read of an unblocked tile happens on the floor region. -/
theorem free_isFloor (x y : Int) (t : Tile)
    (ht : cell? make_map x y = some t) (hfree : t.blocked = false) :
    isFloor x y := by
  obtain ⟨hx, hx', hy, hy'⟩ := cell?_make_map_bounds x y t ht
  rw [cell?_make_map x y hx hx' hy hy'] at ht
  by_contra hnf
  rw [if_neg hnf] at ht
  have hw : Tile.wall = t := Option.some.inj ht
  rw [← hw] at hfree
  exact absurd hfree (by decide)

/-- Conversely, every floor cell reads back as the empty tile. -/
theorem isFloor_cell (x y : Int) (h : isFloor x y) :
    cell? make_map x y = some Tile.empty := by
  obtain ⟨h1, h2, h3, h4⟩ := isFloor_bounds x y h
  rw [cell?_make_map x y (by omega) (by omega) (by omega) (by omega),
    if_pos h]

/-- One unit move from a floor cell of the generated map never panics and
lands on a floor cell again (either it commits into floor or it is a
no-op). -/
theorem move_step_free (o : Object) (dx dy : Int) (hd : (dx, dy) ∈ unitMoves)
    (hfree : isFloor o.x o.y) :
    ∃ o', o.move_by dx dy make_map = some o' ∧ isFloor o'.x o'.y ∧
      o'.char = o.char ∧ o'.color = o.color := by
  obtain ⟨h1, h2, h3, h4⟩ := isFloor_bounds o.x o.y hfree
  have hd' : (dx = 0 ∧ dy = -1) ∨ (dx = 0 ∧ dy = 1) ∨
      (dx = -1 ∧ dy = 0) ∨ (dx = 1 ∧ dy = 0) := by
    simpa [unitMoves, Prod.ext_iff] using hd
  have hcell : cell? make_map (o.x + dx) (o.y + dy) =
      some (if isFloor (o.x + dx) (o.y + dy) then Tile.empty
            else Tile.wall) := by
    apply cell?_make_map <;> omega
  by_cases hf : isFloor (o.x + dx) (o.y + dy)
  · refine ⟨{ o with x := o.x + dx, y := o.y + dy }, ?_, by simpa using hf,
      rfl, rfl⟩
    simp [Object.move_by, hcell, hf, Tile.empty]
  · refine ⟨o, ?_, hfree, rfl, rfl⟩
    simp [Object.move_by, hcell, hf, Tile.wall]

/-- C1: after `make_map()` returns, a cell (x, y) of the 80×45 grid is
empty (`blocked == false`) iff it lies strictly inside room A's interior
(x ∈ [21,29], y ∈ [16,29]) or strictly inside room B's interior
(x ∈ [51,59], y ∈ [16,29]) or on the tunnel row (y = 23, x ∈ [25,55]);
every other cell is a wall. -/
theorem C1_map_characterisation (x y : Int) (hx : 0 ≤ x) (hx' : x < 80)
    (hy : 0 ≤ y) (hy' : y < 45) :
    cell? make_map x y =
      some (if isFloor x y then Tile.empty else Tile.wall) :=
  cell?_make_map x y hx hx' hy hy'

theorem C1_witness :
    cell? make_map 25 23 =
      some (if isFloor 25 23 then Tile.empty else Tile.wall) :=
  C1_map_characterisation 25 23 (by decide) (by decide) (by decide)
    (by decide)

/-- C2: with the candidate cell inside the allocated extents (the read
succeeds), `move_by` commits the candidate position exactly when the
cell is not blocked and otherwise returns the object with every field
unchanged; the map, taken by shared reference, is never modified. -/
theorem C2_move_by_spec (o : Object) (dx dy : Int) (m : Map) (t : Tile)
    (h : cell? m (o.x + dx) (o.y + dy) = some t) :
    o.move_by dx dy m =
      some (if t.blocked then o
            else { o with x := o.x + dx, y := o.y + dy }) := by
  cases hb : t.blocked <;> simp [Object.move_by, h, hb]

theorem C2_witness :
    Object.move_by player 1 0 make_map =
      some (if Tile.empty.blocked then player
            else { player with x := player.x + 1, y := player.y + 0 }) :=
  C2_move_by_spec player 1 0 make_map Tile.empty (by decide)

/-- C8: on Escape (whatever the modifier state), `handle_keys` reports
loop termination and mutates nothing: the player comes back exactly as
it went in, and the map is only ever read. -/
theorem C8_escape_no_mutation (alt : Bool) (p : Object) (m : Map) :
    handle_keys ⟨KeyCode.Escape, alt⟩ p m = some (true, p) := rfl

/-- C4 as stated is false: the `alt` flag is destructured but matched
with a wildcard, so a modified arrow key is NOT ignored — Alt+Up from
the initial player position moves the player. -/
theorem C4_counterexample :
    ¬ (handle_keys ⟨KeyCode.Up, true⟩ player make_map =
        some (false, player)) := by decide

/-- C4 (amended): key dispatch ignores modifier state entirely — for any
`alt` flag, Up/Down/Left/Right move the player by one cell in the
corresponding direction via the `move_by` check, Escape returns true,
and every other key code is a no-op returning false. -/
theorem C4_dispatch (alt : Bool) (p : Object) (m : Map) :
    handle_keys ⟨KeyCode.Up, alt⟩ p m =
      (p.move_by 0 (-1) m).map (fun q => (false, q)) ∧
    handle_keys ⟨KeyCode.Down, alt⟩ p m =
      (p.move_by 0 1 m).map (fun q => (false, q)) ∧
    handle_keys ⟨KeyCode.Left, alt⟩ p m =
      (p.move_by (-1) 0 m).map (fun q => (false, q)) ∧
    handle_keys ⟨KeyCode.Right, alt⟩ p m =
      (p.move_by 1 0 m).map (fun q => (false, q)) ∧
    handle_keys ⟨KeyCode.Escape, alt⟩ p m = some (true, p) ∧
    ∀ c : Nat, handle_keys ⟨KeyCode.Other c, alt⟩ p m = some (false, p) :=
  ⟨rfl, rfl, rfl, rfl, rfl, fun _ => rfl⟩

/-- C9: from any unblocked cell of the generated map, the candidate cell
of a unit move is nonnegative and inside the 80×45 extents, so the
index (after the i32→usize cast) never goes out of bounds and the move
resolves without a panic. -/
theorem C9_candidate_in_bounds (o : Object) (dx dy : Int)
    (hd : (dx, dy) ∈ unitMoves) (t : Tile)
    (ht : cell? make_map o.x o.y = some t) (hfree : t.blocked = false) :
    (0 ≤ o.x + dx ∧ o.x + dx < 80 ∧ 0 ≤ o.y + dy ∧ o.y + dy < 45) ∧
      ∃ o', o.move_by dx dy make_map = some o' := by
  have hf := free_isFloor o.x o.y t ht hfree
  obtain ⟨h1, h2, h3, h4⟩ := isFloor_bounds o.x o.y hf
  have hd' : (dx = 0 ∧ dy = -1) ∨ (dx = 0 ∧ dy = 1) ∨
      (dx = -1 ∧ dy = 0) ∨ (dx = 1 ∧ dy = 0) := by
    simpa [unitMoves, Prod.ext_iff] using hd
  refine ⟨by omega, ?_⟩
  obtain ⟨o', ho', -⟩ := move_step_free o dx dy hd hf
  exact ⟨o', ho'⟩

theorem C9_witness :
    ((0 ≤ player.x + 1 ∧ player.x + 1 < 80 ∧
        0 ≤ player.y + 0 ∧ player.y + 0 < 45) ∧
      ∃ o', Object.move_by player 1 0 make_map = some o') :=
  C9_candidate_in_bounds player 1 0 (by decide) Tile.empty (by decide)
    (by decide)

/-- C10: every cell of the generated map is exactly `Tile::empty()` or
`Tile::wall()`, hence `blocked` and `block_sight` agree everywhere, and
the renderer's sight test and the movement's collision test see the same
cells. -/
theorem C10_blocked_iff_sight (x y : Int) (t : Tile)
    (h : cell? make_map x y = some t) :
    t.blocked = t.block_sight ∧ (t = Tile.empty ∨ t = Tile.wall) := by
  obtain ⟨hx, hx', hy, hy'⟩ := cell?_make_map_bounds x y t h
  rw [cell?_make_map x y hx hx' hy hy'] at h
  have h' := Option.some.inj h
  by_cases hf : isFloor x y
  · rw [if_pos hf] at h'
    rw [← h']
    exact ⟨rfl, Or.inl rfl⟩
  · rw [if_neg hf] at h'
    rw [← h']
    exact ⟨rfl, Or.inr rfl⟩

theorem C10_witness :
    Tile.wall.blocked = Tile.wall.block_sight ∧
      (Tile.wall = Tile.empty ∨ Tile.wall = Tile.wall) :=
  C10_blocked_iff_sight 0 0 Tile.wall (by decide)

/-- Any sequence of unit moves starting on the floor region of the
generated map resolves without a panic and stays on the floor region. -/
theorem apply_moves_isFloor (moves : List (Int × Int)) :
    ∀ o : Object, (∀ d ∈ moves, d ∈ unitMoves) → isFloor o.x o.y →
      ∃ o', apply_moves o moves make_map = some o' ∧ isFloor o'.x o'.y := by
  induction moves with
  | nil => exact fun o _ hf => ⟨o, rfl, hf⟩
  | cons d ds ih =>
    intro o hm hf
    obtain ⟨o₁, ho₁, hf₁, -, -⟩ :=
      move_step_free o d.1 d.2 (hm d (List.mem_cons_self d ds)) hf
    obtain ⟨o', ho', hf'⟩ :=
      ih o₁ (fun e he => hm e (List.mem_cons_of_mem d he)) hf₁
    refine ⟨o', ?_, hf'⟩
    have hstep : apply_moves o (d :: ds) make_map =
        apply_moves o₁ ds make_map := by
      unfold apply_moves
      rw [List.foldlM_cons, ho₁]
      rfl
    rw [hstep]
    exact ho'

/-- C3: an object standing on a non-blocked cell of the generated map
stays on a non-blocked cell through any finite sequence of unit
`move_by` calls, every one of which resolves (no panic). -/
theorem C3_position_invariant (o : Object) (moves : List (Int × Int))
    (hm : ∀ d ∈ moves, d ∈ unitMoves) (t : Tile)
    (ht : cell? make_map o.x o.y = some t) (hfree : t.blocked = false) :
    ∃ o' t', apply_moves o moves make_map = some o' ∧
      cell? make_map o'.x o'.y = some t' ∧ t'.blocked = false := by
  have hf := free_isFloor o.x o.y t ht hfree
  obtain ⟨o', ho', hf'⟩ := apply_moves_isFloor moves o hm hf
  exact ⟨o', Tile.empty, ho', isFloor_cell o'.x o'.y hf', rfl⟩

theorem C3_witness :
    ∃ o' t', apply_moves player [(1, 0)] make_map = some o' ∧
      cell? make_map o'.x o'.y = some t' ∧ t'.blocked = false :=
  C3_position_invariant player [(1, 0)] (by decide) Tile.empty (by decide)
    rfl

/-- C7: from the initial player at (25, 23) on the generated map, four
Right moves commit one after the other, through (26, 23), (27, 23) and
(28, 23) to (29, 23), all on the empty tunnel row. -/
theorem C7_four_rights :
    apply_moves player [(1, 0)] make_map =
      some (Object.new 26 23 '@' WHITE) ∧
    apply_moves player [(1, 0), (1, 0)] make_map =
      some (Object.new 27 23 '@' WHITE) ∧
    apply_moves player [(1, 0), (1, 0), (1, 0)] make_map =
      some (Object.new 28 23 '@' WHITE) ∧
    apply_moves player [(1, 0), (1, 0), (1, 0), (1, 0)] make_map =
      some (Object.new 29 23 '@' WHITE) := by
  refine ⟨?_, ?_, ?_, ?_⟩ <;> decide

/-- Model of one cell of a tcod console: foreground glyph, foreground
colour, background colour. -/
structure ConsoleCell where
  ch : Char
  fg : Color
  bg : Color
deriving DecidableEq, Repr

/-- Model of a tcod console surface (the offscreen `con` or the `root`):
its current default foreground and a total grid of cells. -/
structure Console where
  defaultFg : Color
  cells : Int → Int → ConsoleCell

/-- Toolkit call `set_default_foreground`. -/
def Console.setDefaultForeground (c : Console) (col : Color) : Console :=
  { c with defaultFg := col }

/-- Toolkit call `put_char` with `BackgroundFlag::None`: store the glyph
in the current default foreground; the background is untouched. -/
def Console.putChar (c : Console) (x y : Int) (ch : Char) : Console :=
  { c with cells := fun a b =>
      if a = x ∧ b = y then { c.cells a b with ch := ch, fg := c.defaultFg }
      else c.cells a b }

/-- Toolkit call `set_char_background` with `BackgroundFlag::Set`. -/
def Console.setCharBackground (c : Console) (x y : Int) (col : Color) :
    Console :=
  { c with cells := fun a b =>
      if a = x ∧ b = y then { c.cells a b with bg := col }
      else c.cells a b }

/-- Method `Object::draw(&self, con)`: set the default foreground to the
object's colour, then put its glyph at its position. -/
def Object.draw (o : Object) (c : Console) : Console :=
  (c.setDefaultForeground o.color).putChar o.x o.y o.char

/-- Rust `struct Game { map, objects }`. -/
structure Game where
  map : Map
  objects : List Object

/-- Rust `struct Tcod { root, con }`. -/
structure Tcod where
  root : Console
  con : Console

/-- Object pass of `render_all`: draw every object in sequence order. -/
def draw_objects (c : Console) (objects : List Object) : Console :=
  objects.foldl (fun c o => o.draw c) c

/-- One step of the background pass of `render_all`: read the map tile
(a panic is `none`) and colour the cell background from `block_sight`. -/
def bgStep (m : Map) (c : Console) (x y : Int) : Option Console :=
  (cell? m x y).map (fun t =>
    if t.block_sight then c.setCharBackground x y COLOR_DARK_WALL
    else c.setCharBackground x y COLOR_DARK_GROUND)

/-- Background pass of `render_all`: `(0..MAP_HEIGHT).for_each(|y|
(0..MAP_WIDTH).for_each(|x| ...))`. -/
def render_bg (m : Map) (c : Console) : Option Console :=
  (intRange 0 MAP_HEIGHT).foldlM (fun c y =>
    (intRange 0 MAP_WIDTH).foldlM (fun c x => bgStep m c x y) c) c

/-- Toolkit `blit` of the w×h region at the origin, 1:1 scale, full
opacity. -/
def blit (src : Console) (w h : Int) (dst : Console) : Console :=
  { dst with cells := fun x y =>
      if 0 ≤ x ∧ x < w ∧ 0 ≤ y ∧ y < h then src.cells x y
      else dst.cells x y }

/-- Renderer `fn render_all(tcod, game)`: draw all objects, then the
tile backgrounds, then blit the offscreen console onto the root. -/
def render_all (t : Tcod) (g : Game) : Option Tcod :=
  (render_bg g.map (draw_objects t.con g.objects)).map (fun con =>
    { root := blit con MAP_WIDTH MAP_HEIGHT t.root, con := con })

/-- Visit order of the background pass, flattened to one row-major list
of coordinates. -/
def cellSeq : List (Int × Int) :=
  (intRange 0 MAP_HEIGHT).flatMap (fun y =>
    (intRange 0 MAP_WIDTH).map (fun x => (x, y)))

/-- Background-pass folds, over an arbitrary coordinate list. -/
def bgFold (m : Map) (L : List (Int × Int)) (c : Console) :
    Option Console :=
  L.foldlM (fun c p => bgStep m c p.1 p.2) c

theorem mem_intRange (a b n : Int) :
    n ∈ intRange a b ↔ a ≤ n ∧ n < b := by
  simp only [intRange, List.mem_map, List.mem_range]
  constructor
  · rintro ⟨i, hi, rfl⟩
    omega
  · rintro ⟨h1, h2⟩
    exact ⟨(n - a).toNat, by omega, by omega⟩

theorem mem_cellSeq (x y : Int) :
    (x, y) ∈ cellSeq ↔ 0 ≤ x ∧ x < 80 ∧ 0 ≤ y ∧ y < 45 := by
  simp only [cellSeq, List.mem_flatMap, List.mem_map, mem_intRange,
    Prod.mk.injEq, MAP_WIDTH, MAP_HEIGHT]
  constructor
  · rintro ⟨y', hy', x', hx', rfl, rfl⟩
    omega
  · rintro ⟨h1, h2, h3, h4⟩
    exact ⟨y, ⟨h3, h4⟩, x, ⟨h1, h2⟩, rfl, rfl⟩

/-- The nested background pass visits exactly the flattened sequence. -/
theorem render_bg_eq_flat (m : Map) (c : Console) :
    render_bg m c = bgFold m cellSeq c := by
  unfold render_bg cellSeq bgFold
  generalize intRange 0 MAP_HEIGHT = ys
  induction ys generalizing c with
  | nil => rfl
  | cons y ys ih =>
    rw [List.foldlM_cons, List.flatMap_cons, List.foldlM_append,
      List.foldlM_map]
    have hcont : (fun c => ys.foldlM (fun c y =>
        (intRange 0 MAP_WIDTH).foldlM (fun c x => bgStep m c x y) c) c) =
        (fun c => (ys.flatMap (fun y =>
          (intRange 0 MAP_WIDTH).map (fun x => (x, y)))).foldlM
            (fun c p => bgStep m c p.1 p.2) c) :=
      funext fun c => ih c
    rw [hcont]

theorem setCharBackground_ch_fg (c : Console) (a b x y : Int)
    (col : Color) :
    ((c.setCharBackground a b col).cells x y).ch = (c.cells x y).ch ∧
    ((c.setCharBackground a b col).cells x y).fg = (c.cells x y).fg := by
  unfold Console.setCharBackground
  dsimp only
  split
  · exact ⟨rfl, rfl⟩
  · exact ⟨rfl, rfl⟩

theorem setCharBackground_other (c : Console) (a b x y : Int)
    (col : Color) (h : ¬(x = a ∧ y = b)) :
    (c.setCharBackground a b col).cells x y = c.cells x y := by
  unfold Console.setCharBackground
  dsimp only
  rw [if_neg h]

theorem setCharBackground_self (c : Console) (a b : Int) (col : Color) :
    ((c.setCharBackground a b col).cells a b).bg = col := by
  unfold Console.setCharBackground
  dsimp only
  rw [if_pos ⟨rfl, rfl⟩]

/-- A successful background step is precisely a tile read followed by
one background write at that cell. -/
theorem bgStep_some (m : Map) (c c' : Console) (x y : Int)
    (h : bgStep m c x y = some c') :
    ∃ t, cell? m x y = some t ∧
      c' = (if t.block_sight then c.setCharBackground x y COLOR_DARK_WALL
            else c.setCharBackground x y COLOR_DARK_GROUND) := by
  unfold bgStep at h
  cases hcell : cell? m x y with
  | none => rw [hcell] at h; cases h
  | some t =>
    rw [hcell] at h
    exact ⟨t, rfl, (Option.some.inj h).symm⟩

/-- The background pass never touches a glyph or a foreground colour. -/
theorem bgFold_ch_fg (m : Map) (L : List (Int × Int)) :
    ∀ c c', bgFold m L c = some c' → ∀ x y,
      ((c'.cells x y).ch = (c.cells x y).ch ∧
       (c'.cells x y).fg = (c.cells x y).fg) := by
  induction L with
  | nil =>
    intro c c' h x y
    cases h
    exact ⟨rfl, rfl⟩
  | cons p ps ih =>
    intro c c' h x y
    rw [bgFold, List.foldlM_cons] at h
    cases hc : bgStep m c p.1 p.2 with
    | none => rw [hc] at h; cases h
    | some c₁ =>
      rw [hc] at h
      have h' : bgFold m ps c₁ = some c' := h
      obtain ⟨h1, h2⟩ := ih c₁ c' h' x y
      obtain ⟨t, -, hc₁⟩ := bgStep_some m c c₁ p.1 p.2 hc
      rw [h1, h2, hc₁]
      cases t.block_sight
      · simpa using setCharBackground_ch_fg c p.1 p.2 x y COLOR_DARK_GROUND
      · simpa using setCharBackground_ch_fg c p.1 p.2 x y COLOR_DARK_WALL

/-- Cells the background pass does not visit keep their full state. -/
theorem bgFold_not_mem (m : Map) (L : List (Int × Int)) :
    ∀ c c', bgFold m L c = some c' → ∀ x y, (x, y) ∉ L →
      c'.cells x y = c.cells x y := by
  induction L with
  | nil =>
    intro c c' h x y _
    cases h
    rfl
  | cons p ps ih =>
    intro c c' h x y hmem
    rw [bgFold, List.foldlM_cons] at h
    cases hc : bgStep m c p.1 p.2 with
    | none => rw [hc] at h; cases h
    | some c₁ =>
      rw [hc] at h
      have h' : bgFold m ps c₁ = some c' := h
      have hps : (x, y) ∉ ps := fun hx => hmem (List.mem_cons_of_mem p hx)
      have hp : ¬(x = p.1 ∧ y = p.2) := by
        rintro ⟨rfl, rfl⟩
        exact hmem (by simp)
      obtain ⟨t, -, hc₁⟩ := bgStep_some m c c₁ p.1 p.2 hc
      rw [ih c₁ c' h' x y hps, hc₁]
      cases t.block_sight
      · simpa using setCharBackground_other c p.1 p.2 x y COLOR_DARK_GROUND hp
      · simpa using setCharBackground_other c p.1 p.2 x y COLOR_DARK_WALL hp

/-- Every visited cell's background ends as the colour dictated by its
map tile, no matter how often the pass revisits it. -/
theorem bgFold_bg (m : Map) (L : List (Int × Int)) :
    ∀ c c', bgFold m L c = some c' → ∀ x y t, (x, y) ∈ L →
      cell? m x y = some t →
      (c'.cells x y).bg =
        (if t.block_sight then COLOR_DARK_WALL else COLOR_DARK_GROUND) := by
  induction L with
  | nil =>
    intro c c' h x y t hmem
    cases hmem
  | cons p ps ih =>
    intro c c' h x y t hmem hcell
    rw [bgFold, List.foldlM_cons] at h
    cases hc : bgStep m c p.1 p.2 with
    | none => rw [hc] at h; cases h
    | some c₁ =>
      rw [hc] at h
      have h' : bgFold m ps c₁ = some c' := h
      by_cases hps : (x, y) ∈ ps
      · exact ih c₁ c' h' x y t hps hcell
      · have hp : p = (x, y) := by
          rcases List.mem_cons.mp hmem with hxy | hxy
          · exact hxy.symm
          · exact absurd hxy hps
        subst hp
        obtain ⟨t', ht', hc₁⟩ := bgStep_some m c c₁ x y hc
        rw [hcell] at ht'
        have htt : t = t' := Option.some.inj ht'
        subst htt
        rw [bgFold_not_mem m ps c₁ c' h' x y hps, hc₁]
        cases hb : t.block_sight
        · rw [if_neg (by simp [hb]), if_neg (by simp [hb])]
          exact setCharBackground_self c x y COLOR_DARK_GROUND
        · rw [if_pos (by simp [hb]), if_pos (by simp [hb])]
          exact setCharBackground_self c x y COLOR_DARK_WALL

/-- When every visited cell reads back a tile, the pass cannot panic. -/
theorem bgFold_total (m : Map) (L : List (Int × Int))
    (hL : ∀ p ∈ L, ∃ t, cell? m p.1 p.2 = some t) :
    ∀ c, ∃ c', bgFold m L c = some c' := by
  induction L with
  | nil => exact fun c => ⟨c, rfl⟩
  | cons p ps ih =>
    intro c
    obtain ⟨t, ht⟩ := hL p (List.mem_cons_self p ps)
    have hstep : bgStep m c p.1 p.2 =
        some (if t.block_sight then
          c.setCharBackground p.1 p.2 COLOR_DARK_WALL
        else c.setCharBackground p.1 p.2 COLOR_DARK_GROUND) := by
      unfold bgStep
      rw [ht]
      rfl
    obtain ⟨c', hc'⟩ := ih (fun q hq => hL q (List.mem_cons_of_mem p hq)) _
    refine ⟨c', ?_⟩
    rw [bgFold, List.foldlM_cons, hstep]
    exact hc'

/-- C5: after `render_all`, every composed buffer cell of the 80×45 grid
has background `COLOR_DARK_WALL` iff its map tile has `block_sight`,
else `COLOR_DARK_GROUND`, independent of any object drawn there; and
since the background pass runs after the object pass and writes only
backgrounds, the glyph and foreground left by the object pass survive.
The root cell equals the composed cell after the blit. -/
theorem C5_background_colours (t : Tcod) (g : Game) (t' : Tcod)
    (h : render_all t g = some t') (x y : Int) (tile : Tile)
    (hx : 0 ≤ x) (hx' : x < 80) (hy : 0 ≤ y) (hy' : y < 45)
    (hc : cell? g.map x y = some tile) :
    (t'.con.cells x y).bg =
      (if tile.block_sight then COLOR_DARK_WALL else COLOR_DARK_GROUND) ∧
    (t'.con.cells x y).ch =
      ((draw_objects t.con g.objects).cells x y).ch ∧
    (t'.con.cells x y).fg =
      ((draw_objects t.con g.objects).cells x y).fg ∧
    t'.root.cells x y = t'.con.cells x y := by
  unfold render_all at h
  cases hbg : render_bg g.map (draw_objects t.con g.objects) with
  | none => rw [hbg] at h; cases h
  | some con' =>
    rw [hbg] at h
    have ht' : t' =
        { root := blit con' MAP_WIDTH MAP_HEIGHT t.root, con := con' } :=
      (Option.some.inj h).symm
    rw [render_bg_eq_flat] at hbg
    have hmem : (x, y) ∈ cellSeq := (mem_cellSeq x y).mpr ⟨hx, hx', hy, hy'⟩
    have h1 := bgFold_bg g.map cellSeq _ con' hbg x y tile hmem hc
    have h2 := bgFold_ch_fg g.map cellSeq _ con' hbg x y
    rw [ht']
    refine ⟨h1, h2.1, h2.2, ?_⟩
    show (blit con' MAP_WIDTH MAP_HEIGHT t.root).cells x y = con'.cells x y
    unfold blit
    dsimp only
    rw [if_pos ⟨hx, by simpa [MAP_WIDTH] using hx', hy,
      by simpa [MAP_HEIGHT] using hy'⟩]

/-- A cleared console: spaces on black, white default foreground. -/
def con0 : Console := ⟨WHITE, fun _ _ => ⟨' ', WHITE, ⟨0, 0, 0⟩⟩⟩

/-- The two surfaces of `main` before the first frame. -/
def tcod0 : Tcod := ⟨con0, con0⟩

/-- The game state built by `main`. -/
def game0 : Game := ⟨make_map, [player, npc]⟩

/-- Rendering the initial game state never panics. -/
theorem render_all_game0_total : ∃ t', render_all tcod0 game0 = some t' := by
  have hreads : ∀ p ∈ cellSeq, ∃ t, cell? make_map p.1 p.2 = some t := by
    intro p hp
    obtain ⟨h1, h2, h3, h4⟩ := (mem_cellSeq p.1 p.2).mp (by simpa using hp)
    exact ⟨_, cell?_make_map p.1 p.2 h1 h2 h3 h4⟩
  obtain ⟨c', hc'⟩ := bgFold_total make_map cellSeq hreads
    (draw_objects tcod0.con game0.objects)
  refine ⟨{ root := blit c' MAP_WIDTH MAP_HEIGHT tcod0.root, con := c' }, ?_⟩
  unfold render_all
  have hmap : game0.map = make_map := rfl
  rw [hmap, render_bg_eq_flat, hc']
  rfl

theorem C5_witness :
    ∃ t', render_all tcod0 game0 = some t' ∧
      ((t'.con.cells 0 0).bg =
        (if Tile.wall.block_sight then COLOR_DARK_WALL
         else COLOR_DARK_GROUND) ∧
       (t'.con.cells 0 0).ch =
        ((draw_objects tcod0.con game0.objects).cells 0 0).ch ∧
       (t'.con.cells 0 0).fg =
        ((draw_objects tcod0.con game0.objects).cells 0 0).fg ∧
       t'.root.cells 0 0 = t'.con.cells 0 0) := by
  obtain ⟨t', ht'⟩ := render_all_game0_total
  exact ⟨t', ht', C5_background_colours tcod0 game0 t' ht' 0 0 Tile.wall
    (by decide) (by decide) (by decide) (by decide) (by decide)⟩

/-- Drawing objects that all sit elsewhere leaves a cell untouched. -/
theorem draw_objects_untouched (objects : List Object) :
    ∀ (c : Console) (x y : Int),
      (∀ o ∈ objects, ¬(o.x = x ∧ o.y = y)) →
      (draw_objects c objects).cells x y = c.cells x y := by
  induction objects with
  | nil => exact fun c x y _ => rfl
  | cons o os ih =>
    intro c x y h
    have ho := h o (List.mem_cons_self o os)
    have hstep : (o.draw c).cells x y = c.cells x y := by
      unfold Object.draw Console.putChar Console.setDefaultForeground
      dsimp only
      rw [if_neg (fun hxy => ho ⟨hxy.1.symm, hxy.2.symm⟩)]
    have hrec := ih (o.draw c) x y
      (fun o' ho' => h o' (List.mem_cons_of_mem o ho'))
    show (draw_objects (o.draw c) os).cells x y = c.cells x y
    rw [hrec, hstep]

/-- Drawing an object overwrites glyph and foreground at its own cell. -/
theorem draw_cells_self (o : Object) (c : Console) :
    (o.draw c).cells o.x o.y =
      { c.cells o.x o.y with ch := o.char, fg := o.color } := by
  unfold Object.draw Console.putChar Console.setDefaultForeground
  dsimp only
  rw [if_pos ⟨rfl, rfl⟩]

/-- C6: when several objects of the sequence occupy one cell, the object
pass leaves that cell showing the glyph and foreground colour of the
occupant latest in the sequence (last-wins). -/
theorem C6_last_wins (c : Console) (objects : List Object) (x y : Int)
    (o : Object)
    (h : (objects.filter
        (fun q => decide (q.x = x ∧ q.y = y))).getLast? = some o) :
    ((draw_objects c objects).cells x y).ch = o.char ∧
    ((draw_objects c objects).cells x y).fg = o.color := by
  induction objects generalizing c with
  | nil => simp at h
  | cons p ps ih =>
    show ((draw_objects (p.draw c) ps).cells x y).ch = o.char ∧
      ((draw_objects (p.draw c) ps).cells x y).fg = o.color
    by_cases hp : p.x = x ∧ p.y = y
    · rw [List.filter_cons, if_pos (by simpa using hp)] at h
      cases hps : ps.filter (fun q => decide (q.x = x ∧ q.y = y)) with
      | nil =>
        rw [hps] at h
        have hpo : p = o := by simpa using h
        subst hpo
        have hnone : ∀ o' ∈ ps, ¬(o'.x = x ∧ o'.y = y) := by
          intro o' ho' hc'
          have : o' ∈ ps.filter (fun q => decide (q.x = x ∧ q.y = y)) :=
            List.mem_filter.mpr ⟨ho', by simpa using hc'⟩
          rw [hps] at this
          cases this
        rw [draw_objects_untouched ps (p.draw c) x y hnone]
        obtain ⟨h1, h2⟩ := hp
        subst h1
        subst h2
        rw [draw_cells_self]
        exact ⟨rfl, rfl⟩
      | cons q qs =>
        rw [hps] at h
        rw [List.getLast?_cons_cons, ← hps] at h
        exact ih (p.draw c) h
    · rw [List.filter_cons, if_neg (by simpa using hp)] at h
      exact ih (p.draw c) h

theorem C6_witness :
    ((draw_objects con0
        [player, Object.new 25 23 'n' YELLOW]).cells 25 23).ch =
      (Object.new 25 23 'n' YELLOW).char ∧
    ((draw_objects con0
        [player, Object.new 25 23 'n' YELLOW]).cells 25 23).fg =
      (Object.new 25 23 'n' YELLOW).color :=
  C6_last_wins con0 [player, Object.new 25 23 'n' YELLOW] 25 23
    (Object.new 25 23 'n' YELLOW) (by decide)
